import Mathlib

/-
Verification development for the uefi-bootmgr repository (Rust).

The definitions below are a shallow embedding of the binary codecs and the
boot-aggregation pipeline of the repository:
  - efivar/src/efidevicepath.rs : device path node/chain codec
  - src/efiloadoption.rs        : load option codec and attribute masking
  - efivar/src/efivar.rs        : variable names
  - efivar/src/efiboot.rs       : BootOrder decoding and boot aggregation

Machine integers are modelled as Nat; byte sequences as List Nat (each element
a byte value).  Fallible Rust code returning Result is modelled with Except;
Option-returning code with Option.  Rust strings are modelled as lists of
unicode scalar values (Nat), which is exactly the information content of a
Rust String.
-/

/-- Bytes models a Rust byte buffer: a list of byte values. -/
abbrev Bytes := List Nat

/-- Unified error type covering io::Error, FromUtf16Error,
DevicePathProtocolParseError and LoadOptionParseError from the source.
The Rust code separates these into several enums related by From
conversions; the constructors here are in one-to-one correspondence with
the reachable error shapes. -/
inductive ParseError where
  /-- io::Error (e.g. UnexpectedEof while reading from the cursor). -/
  | ioError : ParseError
  /-- String::from_utf16 failure while decoding a load option description. -/
  | fromUtf16Error : ParseError
  /-- DevicePathProtocolParseError::UnknownType, carrying the type byte. -/
  | unknownType (typ : Nat) : ParseError
  /-- DevicePathProtocolParseError::UnknownSubType, carrying the recognized
  type (as the static string used by the source) and the sub type byte. -/
  | unknownSubType (typ : String) (subType : Nat) : ParseError
  /-- DevicePathProtocolParseError::ParseSubType with its sub_type and
  message strings (the boxed source error is reduced to whether it exists). -/
  | parseSubType (subType : String) (message : String) (hasSource : Bool) : ParseError
deriving DecidableEq, Repr

/-- Models byteorder read_u8: one byte or UnexpectedEof. -/
def readU8 : Bytes → Except ParseError (Nat × Bytes)
  | [] => .error .ioError
  | b :: r => .ok (b, r)

/-- Models byteorder read_u16 little-endian. -/
def readU16 : Bytes → Except ParseError (Nat × Bytes)
  | b0 :: b1 :: r => .ok (b0 + 256 * b1, r)
  | _ => .error .ioError

/-- Models byteorder read_u32 little-endian. -/
def readU32 : Bytes → Except ParseError (Nat × Bytes)
  | b0 :: b1 :: b2 :: b3 :: r =>
      .ok (b0 + 256 * b1 + 65536 * b2 + 16777216 * b3, r)
  | _ => .error .ioError

/-- Models byteorder read_u64 little-endian. -/
def readU64 : Bytes → Except ParseError (Nat × Bytes)
  | b0 :: b1 :: b2 :: b3 :: b4 :: b5 :: b6 :: b7 :: r =>
      .ok (b0 + 2^8 * b1 + 2^16 * b2 + 2^24 * b3
            + 2^32 * b4 + 2^40 * b5 + 2^48 * b6 + 2^56 * b7, r)
  | _ => .error .ioError

/-- Models Read::read_exact into a buffer of n bytes. -/
def readExact (n : Nat) (b : Bytes) : Except ParseError (Bytes × Bytes) :=
  if b.length < n then .error .ioError else .ok (b.take n, b.drop n)

/-- Little-endian encoding of a u16 value (2 bytes). -/
def u16le (v : Nat) : Bytes := [v % 256, v / 256 % 256]

/-- Little-endian encoding of a u32 value (4 bytes). -/
def u32le (v : Nat) : Bytes :=
  [v % 256, v / 256 % 256, v / 65536 % 256, v / 16777216 % 256]

/-- Little-endian encoding of a u64 value (8 bytes). -/
def u64le (v : Nat) : Bytes :=
  [v % 256, v / 2^8 % 256, v / 2^16 % 256, v / 2^24 % 256,
   v / 2^32 % 256, v / 2^40 % 256, v / 2^48 % 256, v / 2^56 % 256]

/-- Serializes a list of u16 code units as little-endian bytes, modelling
bytemuck::cast_slice over a u16 slice on a little-endian host. -/
def utf16leBytes (units : List Nat) : Bytes := (units.map u16le).flatten

/-- Models str::encode_utf16 on one unicode scalar value. -/
def encodeUtf16Char (c : Nat) : List Nat :=
  if c < 0x10000 then [c]
  else
    [0xD800 + (c - 0x10000) / 0x400, 0xDC00 + (c - 0x10000) % 0x400]

/-- Models str::encode_utf16 on a string of unicode scalar values. -/
def encodeUtf16 (s : List Nat) : List Nat := (s.map encodeUtf16Char).flatten

/-- Models String::from_utf16: decodes u16 code units to unicode scalar
values, failing (like the Rust function) on any unpaired surrogate. -/
def fromUtf16 : List Nat → Option (List Nat)
  | [] => some []
  | u :: rest =>
    if u < 0xD800 ∨ 0xE000 ≤ u then
      (fromUtf16 rest).map (u :: ·)
    else if u < 0xDC00 then
      match rest with
      | u2 :: rest2 =>
        if 0xDC00 ≤ u2 ∧ u2 < 0xE000 then
          (fromUtf16 rest2).map ((0x10000 + (u - 0xD800) * 0x400 + (u2 - 0xDC00)) :: ·)
        else none
      | [] => none
    else none

/-- Models the loops in EFILoadOption::parse (description) and
FilePathDevicePath::parse: read little-endian u16 code units until a
0x0000 unit, which is consumed but not kept. -/
def readUnitsUntilZero : Bytes → Except ParseError (List Nat × Bytes)
  | b0 :: b1 :: r =>
    if b0 + 256 * b1 = 0 then .ok ([], r)
    else
      match readUnitsUntilZero r with
      | .error e => .error e
      | .ok (us, rest) => .ok ((b0 + 256 * b1) :: us, rest)
  | _ => .error .ioError

/-- A unicode scalar value as stored in a Rust String or char: below
0x110000 and not a surrogate. -/
def ValidScalar (c : Nat) : Prop := c < 0x110000 ∧ ¬(0xD800 ≤ c ∧ c < 0xE000)

instance (c : Nat) : Decidable (ValidScalar c) := by
  unfold ValidScalar; infer_instance

/-- EndSubType from efidevicepath.rs (num_enum over u8). -/
inductive EndSubType where
  | EndEntireDevicePath : EndSubType
  | EndInstanceDevicePath : EndSubType
deriving DecidableEq, Repr

/-- EndSubType::sub_type. -/
def EndSubType.sub_type : EndSubType → Nat
  | .EndEntireDevicePath => 0xFF
  | .EndInstanceDevicePath => 0x01

/-- The derived num_enum TryFromPrimitive conversion for EndSubType. -/
def EndSubType.tryFromPrimitive (b : Nat) : Option EndSubType :=
  if b = 0xFF then some .EndEntireDevicePath
  else if b = 0x01 then some .EndInstanceDevicePath
  else none

/-- PartitionTableType from efidevicepath.rs. -/
inductive PartitionTableType where
  | MBR : PartitionTableType
  | GPT : PartitionTableType
deriving DecidableEq, Repr

/-- The u8 discriminant of PartitionTableType (IntoPrimitive). -/
def PartitionTableType.toByte : PartitionTableType → Nat
  | .MBR => 0x01
  | .GPT => 0x02

/-- The derived num_enum TryFromPrimitive conversion for PartitionTableType. -/
def PartitionTableType.tryFromPrimitive (b : Nat) : Option PartitionTableType :=
  if b = 0x01 then some .MBR
  else if b = 0x02 then some .GPT
  else none

/-- Uuid models uuid::Uuid as its 16 internal (big-endian field order) bytes. -/
structure Uuid where
  bytes : List Nat
deriving DecidableEq, Repr

/-- The byte shuffle shared by Uuid::from_bytes_le and Uuid::to_bytes_le:
the first three fields (4+2+2 bytes) are byte-reversed, the rest kept.
The permutation is an involution, which is why one definition serves both
directions.  Inputs that are not 16 bytes long cannot occur in the source
(arrays of fixed size 16); they are returned unchanged. -/
def uuidShuffleLE (b : List Nat) : List Nat :=
  match b with
  | [b0, b1, b2, b3, b4, b5, b6, b7, b8, b9, b10, b11, b12, b13, b14, b15] =>
    [b3, b2, b1, b0, b5, b4, b7, b6, b8, b9, b10, b11, b12, b13, b14, b15]
  | l => l

/-- Models Uuid::from_bytes_le. -/
def Uuid.fromBytesLE (b : List Nat) : Uuid := ⟨uuidShuffleLE b⟩

/-- Models Uuid::to_bytes_le. -/
def Uuid.toBytesLE (u : Uuid) : List Nat := uuidShuffleLE u.bytes

/-- Signature from efidevicepath.rs. -/
inductive Signature where
  | None (data : List Nat) : Signature
  | MBRSignature (data : List Nat) : Signature
  | GUID (uuid : Uuid) : Signature
deriving DecidableEq, Repr

/-- The u8 discriminant written for a Signature (impl From for u8). -/
def Signature.toByte : Signature → Nat
  | .None _ => 0x00
  | .MBRSignature _ => 0x01
  | .GUID _ => 0x02

/-- HardDriveDevicePath from efidevicepath.rs. -/
structure HardDriveDevicePath where
  partition_number : Nat
  partition_start : Nat
  partition_size : Nat
  signature : Signature
  partition_table : PartitionTableType
deriving DecidableEq, Repr

/-- FilePathDevicePath from efidevicepath.rs; path_name is the list of
unicode scalar values of the Rust String. -/
structure FilePathDevicePath where
  path_name : List Nat
deriving DecidableEq, Repr

/-- MediaDevicePath from efidevicepath.rs. -/
inductive MediaDevicePath where
  | HardDrive (h : HardDriveDevicePath) : MediaDevicePath
  | FilePath (f : FilePathDevicePath) : MediaDevicePath
deriving DecidableEq, Repr

/-- MediaDevicePath::sub_type. -/
def MediaDevicePath.sub_type : MediaDevicePath → Nat
  | .HardDrive _ => 0x01
  | .FilePath _ => 0x04

/-- MediaDevicePath::size.  For FilePath the source computes
count-with-terminator as u16 (truncating cast) times 2 (wrapping u16
multiplication); both reductions are the explicit mod 65536 here. -/
def MediaDevicePath.size : MediaDevicePath → Nat
  | .HardDrive _ => 4 + 8 + 8 + 16 + 1 + 1
  | .FilePath f => ((encodeUtf16 f.path_name).length + 1) % 65536 * 2 % 65536

/-- EFIDevicePathProtocol from efidevicepath.rs. -/
inductive EFIDevicePathProtocol where
  | MediaDevicePath (m : MediaDevicePath) : EFIDevicePathProtocol
  | End (e : EndSubType) : EFIDevicePathProtocol
deriving DecidableEq, Repr

/-- EFIDevicePathProtocol::new_end_entire. -/
def EFIDevicePathProtocol.new_end_entire : EFIDevicePathProtocol :=
  .End .EndEntireDevicePath

/-- EFIDevicePathProtocol::size (4-byte header plus payload, as wrapping
u16 arithmetic). -/
def EFIDevicePathProtocol.size (n : EFIDevicePathProtocol) : Nat :=
  (4 + match n with
       | .MediaDevicePath m => m.size
       | .End _ => 0) % 65536

/-- HardDriveDevicePath::parse. -/
def HardDriveDevicePath.parse (b : Bytes) : Except ParseError (HardDriveDevicePath × Bytes) :=
  match readU32 b with
  | .error e => .error e
  | .ok (partition_number, r1) =>
  match readU64 r1 with
  | .error e => .error e
  | .ok (partition_start, r2) =>
  match readU64 r2 with
  | .error e => .error e
  | .ok (partition_size, r3) =>
  match readExact 16 r3 with
  | .error e => .error e
  | .ok (signature_data, r4) =>
  match readU8 r4 with
  | .error e => .error e
  | .ok (table_byte, r5) =>
  match PartitionTableType.tryFromPrimitive table_byte with
  | none => .error (.parseSubType "HardDriveDevicePath" "parse partition table" true)
  | some partition_table =>
  match readU8 r5 with
  | .error e => .error e
  | .ok (signature_type, r6) =>
  if signature_type = 0x00 then
    .ok (⟨partition_number, partition_start, partition_size,
          .None signature_data, partition_table⟩, r6)
  else if signature_type = 0x01 then
    .ok (⟨partition_number, partition_start, partition_size,
          .MBRSignature signature_data, partition_table⟩, r6)
  else if signature_type = 0x02 then
    .ok (⟨partition_number, partition_start, partition_size,
          .GUID (Uuid.fromBytesLE signature_data), partition_table⟩, r6)
  else
    .error (.parseSubType "HardDriveDevicePath" "unknown signature type" false)

/-- FilePathDevicePath::parse. -/
def FilePathDevicePath.parse (b : Bytes) : Except ParseError (FilePathDevicePath × Bytes) :=
  match readUnitsUntilZero b with
  | .error e => .error e
  | .ok (buffer, r) =>
    match fromUtf16 buffer with
    | none => .error (.parseSubType "FilePathDevicePath" "parse utf-16" true)
    | some path_name => .ok (⟨path_name⟩, r)

/-- MediaDevicePath::parse (dispatch on the already-read sub type byte). -/
def MediaDevicePath.parse (sub_type : Nat) (b : Bytes) :
    Except ParseError (MediaDevicePath × Bytes) :=
  if sub_type = 0x01 then
    match HardDriveDevicePath.parse b with
    | .error e => .error e
    | .ok (h, r) => .ok (.HardDrive h, r)
  else if sub_type = 0x04 then
    match FilePathDevicePath.parse b with
    | .error e => .error e
    | .ok (f, r) => .ok (.FilePath f, r)
  else
    .error (.unknownSubType "MediaDevicePath" sub_type)

/-- EFIDevicePathProtocol::parse: reads type, sub type and the 2-byte size
field (which the source binds to an unused _length), then dispatches. -/
def EFIDevicePathProtocol.parse (b : Bytes) :
    Except ParseError (EFIDevicePathProtocol × Bytes) :=
  match readU8 b with
  | .error e => .error e
  | .ok (typ, r1) =>
  match readU8 r1 with
  | .error e => .error e
  | .ok (sub_type, r2) =>
  match readU16 r2 with
  | .error e => .error e
  | .ok (_length, r3) =>
  if typ = 0x04 then
    match MediaDevicePath.parse sub_type r3 with
    | .error e => .error e
    | .ok (m, r) => .ok (.MediaDevicePath m, r)
  else if typ = 0x7F then
    match EndSubType.tryFromPrimitive sub_type with
    | none => .error (.unknownSubType "End" sub_type)
    | some e => .ok (.End e, r3)
  else
    .error (.unknownType typ)

/-- HardDriveDevicePath::write (payload only). -/
def HardDriveDevicePath.write (h : HardDriveDevicePath) : Bytes :=
  u32le h.partition_number ++ u64le h.partition_start ++ u64le h.partition_size
    ++ (match h.signature with
        | .None data => data
        | .MBRSignature data => data
        | .GUID u => u.toBytesLE)
    ++ [h.partition_table.toByte] ++ [h.signature.toByte]

/-- MediaDevicePath::write (payload only). -/
def MediaDevicePath.write : MediaDevicePath → Bytes
  | .HardDrive h => h.write
  | .FilePath f => utf16leBytes (encodeUtf16 f.path_name ++ [0x0000])

/-- EFIDevicePathProtocol::write: type byte, sub type byte, recomputed
size field, then the payload. -/
def EFIDevicePathProtocol.write (n : EFIDevicePathProtocol) : Bytes :=
  (match n with
   | .MediaDevicePath m => [0x04, m.sub_type]
   | .End e => [0x7F, e.sub_type])
  ++ u16le n.size
  ++ (match n with
      | .MediaDevicePath m => m.write
      | .End _ => [])

/-- Models the device path list loop of EFILoadOption::parse: repeatedly
parse nodes, stopping at (and discarding) the first End node; nodes before
it are collected in order.  The source loops without an explicit bound;
the fuel argument is a termination device only: every successful node
parse consumes at least the 4 header bytes, so with fuel greater than the
buffer length the 0-fuel arm is unreachable (parseDevicePathListAux_fuel
below makes this exact). -/
def parseDevicePathListAux : Nat → Bytes → Except ParseError (List EFIDevicePathProtocol × Bytes)
  | 0, _ => .error .ioError
  | fuel + 1, b =>
    match EFIDevicePathProtocol.parse b with
    | .error e => .error e
    | .ok (.End _, rest) => .ok ([], rest)
    | .ok (.MediaDevicePath m, rest) =>
      match parseDevicePathListAux fuel rest with
      | .error e => .error e
      | .ok (list, leftover) => .ok (.MediaDevicePath m :: list, leftover)

/-- The device path list loop of EFILoadOption::parse, run on a buffer. -/
def parseDevicePathList (b : Bytes) : Except ParseError (List EFIDevicePathProtocol × Bytes) :=
  parseDevicePathListAux (b.length + 1) b

/-- The chain serialization performed by EFILoadOption::write: append an
EndEntire terminator to the in-memory list, then write each node. -/
def writeDevicePathList (l : List EFIDevicePathProtocol) : Bytes :=
  ((l ++ [EFIDevicePathProtocol.new_end_entire]).map EFIDevicePathProtocol.write).flatten

/-- LoadOptionAttributes is a repr(transparent) u32 wrapper; modelled as Nat. -/
abbrev LoadOptionAttributes := Nat

/-- LoadOptionAttributes::CATEGORY_MASK. -/
def LoadOptionAttributes.CATEGORY_MASK : Nat := 0x00001F00

/-- The union of the three declared LoadOptionAttributeFlag bits
(Active 0x1, ForceReconnect 0x2, Hidden 0x8).  enumflags2
from_bits_truncate keeps exactly these bits. -/
def loadOptionFlagBitsAll : Nat := 0x0000000B

/-- LoadOptionAttributes::category_bits. -/
def LoadOptionAttributes.category_bits (a : LoadOptionAttributes) : Nat :=
  a &&& LoadOptionAttributes.CATEGORY_MASK

/-- LoadOptionAttributes::category (the returned LoadOptionCategory is its
u32 payload). -/
def LoadOptionAttributes.category (a : LoadOptionAttributes) : Nat :=
  LoadOptionAttributes.category_bits a

/-- LoadOptionAttributes::flag_bits: the mask used is
CATEGORY_MASK xor u32::MAX. -/
def LoadOptionAttributes.flag_bits (a : LoadOptionAttributes) : Nat :=
  a &&& (LoadOptionAttributes.CATEGORY_MASK ^^^ 0xFFFFFFFF)

/-- LoadOptionAttributes::flags: BitFlags::from_bits_truncate of flag_bits. -/
def LoadOptionAttributes.flags (a : LoadOptionAttributes) : Nat :=
  LoadOptionAttributes.flag_bits a &&& loadOptionFlagBitsAll

/-- LoadOptionAttributes::set_flags. -/
def LoadOptionAttributes.set_flags (a : LoadOptionAttributes) (flags : Nat) : LoadOptionAttributes :=
  flags ||| LoadOptionAttributes.category_bits a

/-- LoadOptionAttributes::set_category. -/
def LoadOptionAttributes.set_category (a : LoadOptionAttributes) (category : Nat) : LoadOptionAttributes :=
  category ||| LoadOptionAttributes.flag_bits a

/-- EFILoadOption from src/efiloadoption.rs; description is the list of
unicode scalar values of the Rust String. -/
structure EFILoadOption where
  attributes : Nat
  file_path_list : List EFIDevicePathProtocol
  description : List Nat
  optional_data : Bytes
deriving DecidableEq, Repr

/-- The u16 sum (with wrapping additions, as in release-mode Rust) of node
sizes taken by EFILoadOption::write for the file path list length field. -/
def sumSizesU16 (l : List EFIDevicePathProtocol) : Nat :=
  l.foldl (fun acc n => (acc + n.size) % 65536) 0

/-- EFILoadOption::parse: attributes, path list length, 0x0000-terminated
UTF-16 description, then exactly file_path_list_length bytes for the
device path list (whose bytes left over after the End node are dropped
with the sub-buffer cursor), then all remaining bytes as optional data. -/
def EFILoadOption.parse (b : Bytes) : Except ParseError EFILoadOption :=
  match readU32 b with
  | .error e => .error e
  | .ok (attributes, r1) =>
  match readU16 r1 with
  | .error e => .error e
  | .ok (file_path_list_length, r2) =>
  match readUnitsUntilZero r2 with
  | .error e => .error e
  | .ok (descUnits, r3) =>
  match fromUtf16 descUnits with
  | none => .error .fromUtf16Error
  | some description =>
  match readExact file_path_list_length r3 with
  | .error e => .error e
  | .ok (buffer, r4) =>
  match parseDevicePathList buffer with
  | .error e => .error e
  | .ok (file_path_list, _leftover) =>
  .ok ⟨attributes, file_path_list, description, r4⟩

/-- EFILoadOption::write: attributes, recomputed path list length,
0x0000-terminated UTF-16 description, the chain with its appended
EndEntire terminator, then the optional data. -/
def EFILoadOption.write (lo : EFILoadOption) : Bytes :=
  u32le lo.attributes
    ++ u16le (sumSizesU16 (lo.file_path_list ++ [EFIDevicePathProtocol.new_end_entire]))
    ++ utf16leBytes (encodeUtf16 lo.description ++ [0x0000])
    ++ writeDevicePathList lo.file_path_list
    ++ lo.optional_data

/-- VariableName from efivar/src/efivar.rs; the key models the Rust String
as its character list. -/
structure VariableName where
  key : List Char
  vendor : Uuid
deriving DecidableEq, Repr

/-- The EFI_GLOBAL_VENDOR_GID constant
8be4df61-93ca-11d2-aa0d-00e098032b8c as Uuid bytes. -/
def EFI_GLOBAL_VENDOR_UUID : Uuid :=
  ⟨[0x8b, 0xe4, 0xdf, 0x61, 0x93, 0xca, 0x11, 0xd2,
    0xaa, 0x0d, 0x00, 0xe0, 0x98, 0x03, 0x2b, 0x8c]⟩

/-- VariableName::global_vendor_new. -/
def VariableName.global_vendor_new (key : List Char) : VariableName :=
  ⟨key, EFI_GLOBAL_VENDOR_UUID⟩

/-- VariableNameFromStrError from efivar/src/efivar.rs (the uuid::Error
payload of UuidError carries no information used here). -/
inductive VariableNameFromStrError where
  | InvalidFormat : VariableNameFromStrError
  | UuidError : VariableNameFromStrError
deriving DecidableEq, Repr

/-- Models str::split_once: split at the first occurrence of c; neither
returned part contains that occurrence. -/
def splitOnce (c : Char) : List Char → Option (List Char × List Char)
  | [] => none
  | x :: xs =>
    if x = c then some ([], xs)
    else (splitOnce c xs).map (fun p => (x :: p.1, p.2))

/-- VariableName::from_str, parameterized by the uuid crate text parser
(treated as an opaque external function, as the source treats it). -/
def VariableName.from_str (parseUuid : List Char → Option Uuid) (s : List Char) :
    Except VariableNameFromStrError VariableName :=
  match splitOnce '-' s with
  | none => .error .InvalidFormat
  | some (key, vendor) =>
    match parseUuid vendor with
    | none => .error .UuidError
    | some u => .ok ⟨key, u⟩

/-- EFIVariable from efivar/src/efivar.rs; attributes is the raw store
attributes bitfield value. -/
structure EFIVariable where
  name : VariableName
  attributes : Nat
  data : Bytes
deriving DecidableEq, Repr

/-- Decides whether a character is in the regex class [0-9A-F]. -/
def isUpperHexDigit (c : Char) : Bool :=
  (decide ('0' ≤ c) && decide (c ≤ '9')) || (decide ('A' ≤ c) && decide (c ≤ 'F'))

/-- Numeric value of one [0-9A-F] digit. -/
def hexDigitVal (c : Char) : Nat :=
  if c ≤ '9' then c.toNat - '0'.toNat else c.toNat - 'A'.toNat + 10

/-- Value of a hex digit string, as u16::from_str_radix(s, 16) computes it
(4 uppercase hex digits always fit a u16, so the Ok case is total here). -/
def hexVal (ds : List Char) : Nat :=
  ds.foldl (fun acc c => 16 * acc + hexDigitVal c) 0

/-- Models the boot key regex match and id extraction of read_boot_entry:
the key must be Boot followed by exactly 4 uppercase hex digits
(regex Boot([0-9A-F]{4}) anchored on both sides); the digits parse as the
16-bit id. -/
def bootKeyId (key : List Char) : Option Nat :=
  match key with
  | 'B' :: 'o' :: 'o' :: 't' :: ds =>
    if ds.length = 4 && ds.all isUpperHexDigit then some (hexVal ds) else none
  | _ => none

/-- BootEntry from efivar/src/efiboot.rs. -/
structure BootEntry where
  id : Nat
  load_option : EFILoadOption
deriving DecidableEq, Repr

/-- BootEntry::description. -/
def BootEntry.description (e : BootEntry) : List Nat :=
  e.load_option.description

/-- BootEntry::is_active: the Active flag (bit 0x1) is contained in the
load option attribute flags. -/
def BootEntry.is_active (e : BootEntry) : Bool :=
  decide (LoadOptionAttributes.flags e.load_option.attributes &&& 0x00000001 = 0x00000001)

/-- BootOrder from efivar/src/efiboot.rs. -/
structure BootOrder where
  order : List Nat
deriving DecidableEq, Repr

/-- OrderedBootEntries from efivar/src/efiboot.rs.  The HashMap of entries
is modelled as the association list it is collected from; lookup is
last-write-wins (hashMapGet below), matching HashMap collect semantics. -/
structure OrderedBootEntries where
  entries : List (Nat × BootEntry)
  order : BootOrder
deriving DecidableEq, Repr

/-- Models HashMap::get on a map collected from an association list:
later inserts overwrite earlier ones, so the last binding of the key wins. -/
def hashMapGet (l : List (Nat × BootEntry)) (id : Nat) : Option BootEntry :=
  (l.reverse.find? (fun p => p.1 == id)).map (fun p => p.2)

/-- OrderedBootEntries::iter: walk the order ids and filter-map them
through the entries map. -/
def OrderedBootEntries.iter (o : OrderedBootEntries) : List BootEntry :=
  o.order.order.filterMap (fun id => hashMapGet o.entries id)

/-- The EFIVars backend capability (efivar/src/backend/mod.rs) reduced to
its two required operations, with the async layer erased: each field is
the value its awaited future resolves to.  The error types of the two
operations stay abstract, exactly as the ListError and ReadError
associated types do in the trait. -/
structure Backend (ε ρ : Type) where
  enumerate_variables : Except ε (List VariableName)
  read_variable : VariableName → Option (Except ρ EFIVariable)

/-- BootEntryParseError from efivar/src/efiboot.rs: a parse failure tagged
with the 16-bit boot id. -/
structure BootEntryParseError where
  id : Nat
  source : ParseError
deriving DecidableEq, Repr

/-- ReadBootEntryError from efivar/src/efiboot.rs.  Note that the
ReadVariableError arm carries only the backend read error. -/
inductive ReadBootEntryError (ρ : Type) where
  | ReadVariableError (e : ρ) : ReadBootEntryError ρ
  | ParseError (e : BootEntryParseError) : ReadBootEntryError ρ
deriving DecidableEq, Repr

/-- ListBootEntriesError from efivar/src/efiboot.rs. -/
inductive ListBootEntriesError (ε ρ : Type) where
  | ListVariablesError (e : ε) : ListBootEntriesError ε ρ
  | ReadBootEntryError (e : ReadBootEntryError ρ) : ListBootEntriesError ε ρ
  | NoBootOrderVariableError : ListBootEntriesError ε ρ
  | ReadBootOrderVariableError (e : ρ) : ListBootEntriesError ε ρ
deriving DecidableEq, Repr

/-- Outcome of Rust code that may panic: either a panic with its message
or the normal value. -/
inductive PanicOr (α : Type) where
  | panicked (msg : String) : PanicOr α
  | ok (val : α) : PanicOr α
deriving DecidableEq, Repr

/-- Reassembles consecutive byte pairs as little-endian u16 values. -/
def u16ChunksLE : Bytes → List Nat
  | b0 :: b1 :: rest => (b0 + 256 * b1) :: u16ChunksLE rest
  | _ => []

/-- Models bytemuck::cast_slice from u8 to u16 on a little-endian host:
panics (TargetSizeMismatch) when the byte length is not a multiple of 2;
otherwise yields the packed u16 array.  The crate can also panic on a
misaligned source pointer, a memory-layout condition with no counterpart
in this embedding. -/
def castSliceU16 (b : Bytes) : PanicOr (List Nat) :=
  if b.length % 2 = 0 then .ok (u16ChunksLE b)
  else .panicked "cast_slice size mismatch"

/-- The key string BootOrder. -/
def bootOrderKey : List Char := ['B', 'o', 'o', 't', 'O', 'r', 'd', 'e', 'r']

/-- ListBootEntriesExt::read_boot_entry: None when the key does not match
the BootNNNN pattern or the variable does not exist; a read failure wraps
the backend error, a parse failure is tagged with the boot id. -/
def read_boot_entry {ε ρ : Type} (b : Backend ε ρ) (name : VariableName) :
    Option (Except (ReadBootEntryError ρ) BootEntry) :=
  match bootKeyId name.key with
  | none => none
  | some id =>
    match b.read_variable name with
    | none => none
    | some (.error e) => some (.error (.ReadVariableError e))
    | some (.ok v) =>
      match EFILoadOption.parse v.data with
      | .error err => some (.error (.ParseError ⟨id, err⟩))
      | .ok load_option => some (.ok ⟨id, load_option⟩)

/-- The stream filter_map plus try_collect of list_boot_entries: names are
processed in enumeration order, non-matching or absent names are skipped,
and the first error aborts the collection. -/
def collectBootEntries {ε ρ : Type} (b : Backend ε ρ) :
    List VariableName → Except (ReadBootEntryError ρ) (List BootEntry)
  | [] => .ok []
  | n :: rest =>
    match read_boot_entry b n with
    | none => collectBootEntries b rest
    | some (.error e) => .error e
    | some (.ok entry) =>
      match collectBootEntries b rest with
      | .error e => .error e
      | .ok l => .ok (entry :: l)

/-- ListBootEntriesExt::list_boot_entries: read and decode BootOrder
(the bytemuck cast panics on odd payload length), enumerate the variable
names, collect the boot entries, and pair them into OrderedBootEntries. -/
def list_boot_entries {ε ρ : Type} (b : Backend ε ρ) :
    PanicOr (Except (ListBootEntriesError ε ρ) OrderedBootEntries) :=
  match b.read_variable (VariableName.global_vendor_new bootOrderKey) with
  | none => .ok (.error .NoBootOrderVariableError)
  | some (.error e) => .ok (.error (.ReadBootOrderVariableError e))
  | some (.ok v) =>
    match castSliceU16 v.data with
    | .panicked msg => .panicked msg
    | .ok order =>
      match b.enumerate_variables with
      | .error e => .ok (.error (.ListVariablesError e))
      | .ok names =>
        match collectBootEntries b names with
        | .error e => .ok (.error (.ReadBootEntryError e))
        | .ok entries =>
          .ok (.ok ⟨entries.map (fun e => (e.id, e)), ⟨order⟩⟩)

/-- Distribution of bitwise and over bitwise or on Nat. -/
theorem nat_lor_land_distrib (x y z : Nat) : (x ||| y) &&& z = (x &&& z) ||| (y &&& z) := by
  apply Nat.eq_of_testBit_eq; intro i
  simp [Nat.testBit_land, Nat.testBit_lor, Bool.and_or_distrib_right]

/-- Masking twice with the same mask masks once. -/
theorem land_land_self (x y : Nat) : (x &&& y) &&& y = x &&& y := by
  rw [Nat.land_assoc, Nat.and_self]

/-- C5: for every LoadOptionAttributes value a, every flag set f (a value
of BitFlags over the three declared flag bits) and every category value c
(category values always lie inside the category mask): set_flags never
changes the category bits (bits under mask 0x00001F00), set_category
never changes the flag bits (all bits outside that mask, preserved at
bit level by the flag_bits conjuncts, declared flags or not), and after
setting either field, reading it back with flags or category returns
exactly the value last set, in either call order. -/
theorem c5_attribute_masking (a f c : Nat)
    (hf : f &&& loadOptionFlagBitsAll = f)
    (hc : c &&& LoadOptionAttributes.CATEGORY_MASK = c) :
    LoadOptionAttributes.category_bits (LoadOptionAttributes.set_flags a f)
        = LoadOptionAttributes.category_bits a
    ∧ LoadOptionAttributes.flags (LoadOptionAttributes.set_category a c)
        = LoadOptionAttributes.flags a
    ∧ LoadOptionAttributes.flags (LoadOptionAttributes.set_flags a f) = f
    ∧ LoadOptionAttributes.category (LoadOptionAttributes.set_category a c) = c
    ∧ LoadOptionAttributes.flags
        (LoadOptionAttributes.set_category (LoadOptionAttributes.set_flags a f) c) = f
    ∧ LoadOptionAttributes.category
        (LoadOptionAttributes.set_category (LoadOptionAttributes.set_flags a f) c) = c
    ∧ LoadOptionAttributes.flags
        (LoadOptionAttributes.set_flags (LoadOptionAttributes.set_category a c) f) = f
    ∧ LoadOptionAttributes.category
        (LoadOptionAttributes.set_flags (LoadOptionAttributes.set_category a c) f) = c
    ∧ LoadOptionAttributes.flag_bits (LoadOptionAttributes.set_category a c)
        = LoadOptionAttributes.flag_bits a
    ∧ LoadOptionAttributes.flag_bits
        (LoadOptionAttributes.set_category (LoadOptionAttributes.set_flags a f) c)
        = LoadOptionAttributes.flag_bits (LoadOptionAttributes.set_flags a f) := by
  have d1 : loadOptionFlagBitsAll &&& LoadOptionAttributes.CATEGORY_MASK = 0 := by decide
  have d2 : loadOptionFlagBitsAll &&& (LoadOptionAttributes.CATEGORY_MASK ^^^ 0xFFFFFFFF)
      = loadOptionFlagBitsAll := by decide
  have d3 : LoadOptionAttributes.CATEGORY_MASK
      &&& (LoadOptionAttributes.CATEGORY_MASK ^^^ 0xFFFFFFFF) = 0 := by decide
  have d4 : (LoadOptionAttributes.CATEGORY_MASK ^^^ 0xFFFFFFFF)
      &&& LoadOptionAttributes.CATEGORY_MASK = 0 := by decide
  have hfM : f &&& LoadOptionAttributes.CATEGORY_MASK = 0 := by
    rw [← hf, Nat.land_assoc, d1, Nat.and_zero]
  have hfM' : f &&& (LoadOptionAttributes.CATEGORY_MASK ^^^ 0xFFFFFFFF) = f := by
    conv_lhs => rw [← hf]
    rw [Nat.land_assoc, d2, hf]
  have hcM' : c &&& (LoadOptionAttributes.CATEGORY_MASK ^^^ 0xFFFFFFFF) = 0 := by
    rw [← hc, Nat.land_assoc, d3, Nat.and_zero]
  have hA : ∀ x, LoadOptionAttributes.category_bits (LoadOptionAttributes.set_flags x f)
      = LoadOptionAttributes.category_bits x := by
    intro x
    show (f ||| (x &&& LoadOptionAttributes.CATEGORY_MASK)) &&& LoadOptionAttributes.CATEGORY_MASK
        = x &&& LoadOptionAttributes.CATEGORY_MASK
    rw [nat_lor_land_distrib, hfM, Nat.zero_or, land_land_self]
  have hB : ∀ x, LoadOptionAttributes.flags (LoadOptionAttributes.set_flags x f) = f := by
    intro x
    show ((f ||| (x &&& LoadOptionAttributes.CATEGORY_MASK))
          &&& (LoadOptionAttributes.CATEGORY_MASK ^^^ 0xFFFFFFFF)) &&& loadOptionFlagBitsAll = f
    rw [nat_lor_land_distrib, hfM', Nat.land_assoc x, d3, Nat.and_zero, Nat.or_zero, hf]
  have hC : ∀ x, LoadOptionAttributes.flags (LoadOptionAttributes.set_category x c)
      = LoadOptionAttributes.flags x := by
    intro x
    show ((c ||| (x &&& (LoadOptionAttributes.CATEGORY_MASK ^^^ 0xFFFFFFFF)))
          &&& (LoadOptionAttributes.CATEGORY_MASK ^^^ 0xFFFFFFFF)) &&& loadOptionFlagBitsAll
        = (x &&& (LoadOptionAttributes.CATEGORY_MASK ^^^ 0xFFFFFFFF)) &&& loadOptionFlagBitsAll
    rw [nat_lor_land_distrib, hcM', Nat.zero_or, land_land_self]
  have hD : ∀ x, LoadOptionAttributes.category (LoadOptionAttributes.set_category x c) = c := by
    intro x
    show (c ||| (x &&& (LoadOptionAttributes.CATEGORY_MASK ^^^ 0xFFFFFFFF)))
          &&& LoadOptionAttributes.CATEGORY_MASK = c
    rw [nat_lor_land_distrib, hc, Nat.land_assoc x, d4, Nat.and_zero, Nat.or_zero]
  have hE : ∀ x, LoadOptionAttributes.flag_bits (LoadOptionAttributes.set_category x c)
      = LoadOptionAttributes.flag_bits x := by
    intro x
    show (c ||| (x &&& (LoadOptionAttributes.CATEGORY_MASK ^^^ 0xFFFFFFFF)))
          &&& (LoadOptionAttributes.CATEGORY_MASK ^^^ 0xFFFFFFFF)
        = x &&& (LoadOptionAttributes.CATEGORY_MASK ^^^ 0xFFFFFFFF)
    rw [nat_lor_land_distrib, hcM', Nat.zero_or, land_land_self]
  refine ⟨hA a, hC a, hB a, hD a, ?_, hD _, hB _, ?_, hE a, hE _⟩
  · rw [hC, hB]
  · show LoadOptionAttributes.category_bits
        (LoadOptionAttributes.set_flags (LoadOptionAttributes.set_category a c) f) = c
    rw [hA]
    exact hD a

/-- Witness for c5_attribute_masking at a = 0xFFFF, flags = Active|Hidden
(0x9), category = Application (0x100); the last component exercises the
bit-level flag preservation at a = 0x1FFFF, whose flag bits include
values outside the three declared flags (for example 0x4 and 0x10000). -/
theorem c5_attribute_masking_witness :
    LoadOptionAttributes.flags
      (LoadOptionAttributes.set_category (LoadOptionAttributes.set_flags 0xFFFF 0x9) 0x100) = 0x9
    ∧ LoadOptionAttributes.category
      (LoadOptionAttributes.set_category (LoadOptionAttributes.set_flags 0xFFFF 0x9) 0x100) = 0x100
    ∧ LoadOptionAttributes.flag_bits (LoadOptionAttributes.set_category 0x1FFFF 0x100)
        = LoadOptionAttributes.flag_bits 0x1FFFF :=
  ⟨(c5_attribute_masking 0xFFFF 0x9 0x100 (by decide) (by decide)).2.2.2.2.1,
   (c5_attribute_masking 0xFFFF 0x9 0x100 (by decide) (by decide)).2.2.2.2.2.1,
   (c5_attribute_masking 0x1FFFF 0x9 0x100 (by decide) (by decide)).2.2.2.2.2.2.2.2.1⟩

/-- C9: device path node decode never uses the stored 2-byte size field:
two inputs that differ only in the size bytes of the node parse to the
same result (same node, same remaining bytes), so a corrupted size field
is neither detected nor used to bound the payload. -/
theorem c9_size_field_ignored (t s l0 l1 l0' l1' : Nat) (rest : Bytes) :
    EFIDevicePathProtocol.parse (t :: s :: l0 :: l1 :: rest)
      = EFIDevicePathProtocol.parse (t :: s :: l0' :: l1' :: rest) := rfl

/-- C7: a node whose type byte is neither 0x04 (Media) nor 0x7F (End)
fails with UnknownType carrying that byte; a recognized type with an
unrecognized sub type byte fails with UnknownSubType carrying the
recognized type and the sub type byte; both are distinct from the io
error constructor. -/
theorem c7_unknown_type_subtype (t s l0 l1 : Nat) (rest : Bytes) :
    (t ≠ 0x04 → t ≠ 0x7F →
      EFIDevicePathProtocol.parse (t :: s :: l0 :: l1 :: rest) = .error (.unknownType t))
    ∧ (s ≠ 0x01 → s ≠ 0xFF →
      EFIDevicePathProtocol.parse (0x7F :: s :: l0 :: l1 :: rest)
        = .error (.unknownSubType "End" s))
    ∧ (s ≠ 0x01 → s ≠ 0x04 →
      EFIDevicePathProtocol.parse (0x04 :: s :: l0 :: l1 :: rest)
        = .error (.unknownSubType "MediaDevicePath" s))
    ∧ (∀ typ : Nat, ParseError.unknownType typ ≠ .ioError)
    ∧ (∀ (ts : String) (st : Nat), ParseError.unknownSubType ts st ≠ .ioError) := by
  refine ⟨?_, ?_, ?_, fun _ => by simp, fun _ _ => by simp⟩
  · intro h4 h7
    simp [EFIDevicePathProtocol.parse, readU8, readU16, h4, h7]
  · intro h1 hFF
    simp [EFIDevicePathProtocol.parse, readU8, readU16, EndSubType.tryFromPrimitive, h1, hFF]
  · intro h1 h4
    simp [EFIDevicePathProtocol.parse, readU8, readU16, MediaDevicePath.parse, h1, h4]

/-- Witness for c7_unknown_type_subtype at type byte 0xAA and sub type
bytes 0x02 (under End) and 0xAA (under Media). -/
theorem c7_unknown_type_subtype_witness :
    EFIDevicePathProtocol.parse [0xAA, 0x01, 0x04, 0x00] = .error (.unknownType 0xAA)
    ∧ EFIDevicePathProtocol.parse [0x7F, 0x02, 0x04, 0x00] = .error (.unknownSubType "End" 0x02)
    ∧ EFIDevicePathProtocol.parse [0x04, 0xAA, 0x04, 0x00]
        = .error (.unknownSubType "MediaDevicePath" 0xAA) :=
  ⟨(c7_unknown_type_subtype 0xAA 0x01 0x04 0x00 []).1 (by decide) (by decide),
   (c7_unknown_type_subtype 0xAA 0x02 0x04 0x00 []).2.1 (by decide) (by decide),
   (c7_unknown_type_subtype 0xAA 0xAA 0x04 0x00 []).2.2.1 (by decide) (by decide)⟩

/-- Characterization of splitOnce: it finds the first occurrence of c,
returning the prefix before it and the suffix after it. -/
theorem splitOnce_eq (c : Char) (s : List Char) :
    splitOnce c s =
      if c ∈ s then some (s.takeWhile (· != c), (s.dropWhile (· != c)).tail) else none := by
  induction s with
  | nil => simp [splitOnce]
  | cons x xs ih =>
    by_cases hx : x = c
    · subst hx
      simp [splitOnce, List.takeWhile_cons, List.dropWhile_cons]
    · rw [splitOnce.eq_def]
      simp only [hx, if_false, ih, List.takeWhile_cons, List.dropWhile_cons, List.mem_cons]
      by_cases hm : c ∈ xs
      · simp [hm, hx, Ne.symm hx, bne_iff_ne]
      · simp [hm, hx, Ne.symm hx]

/-- C10: VariableName::from_str splits at the first hyphen.  It succeeds
exactly when the input contains a hyphen and everything after the first
hyphen parses as a UUID; the key of a successful parse is the part before
the first hyphen, hence never itself contains a hyphen. -/
theorem c10_from_str_splits_at_first_hyphen
    (parseUuid : List Char → Option Uuid) (s : List Char) :
    ((∃ vn, VariableName.from_str parseUuid s = .ok vn)
        ↔ ('-' ∈ s ∧ ∃ u, parseUuid ((s.dropWhile (· != '-')).tail) = some u))
    ∧ (∀ vn, VariableName.from_str parseUuid s = .ok vn →
        vn.key = s.takeWhile (· != '-') ∧ '-' ∉ vn.key) := by
  constructor
  · unfold VariableName.from_str
    rw [splitOnce_eq]
    by_cases hm : '-' ∈ s
    · simp only [hm, if_true]
      cases hp : parseUuid ((s.dropWhile (· != '-')).tail) with
      | none => simp [hp]
      | some u => simp [hp, hm]
    · simp [hm]
  · intro vn h
    unfold VariableName.from_str at h
    rw [splitOnce_eq] at h
    by_cases hm : '-' ∈ s
    · simp only [hm, if_true] at h
      cases hp : parseUuid ((s.dropWhile (· != '-')).tail) with
      | none => rw [hp] at h; cases h
      | some u =>
        rw [hp] at h
        cases h
        refine ⟨rfl, fun hmem => ?_⟩
        have := List.mem_takeWhile_imp hmem
        simp at this
    · rw [if_neg hm] at h; cases h

/-- A concrete uuid text parser accepting exactly one input, used to
instantiate the from_str theorem. -/
def uuidParserW : List Char → Option Uuid :=
  fun l => if l = ['a', 'b'] then some ⟨[]⟩ else none

/-- A concrete variable name text. -/
def strW : List Char := ['k', 'e', 'y', '-', 'a', 'b']

/-- Witness for c10_from_str_splits_at_first_hyphen on a concrete parser
and input. -/
theorem c10_from_str_witness :
    (∃ vn, VariableName.from_str uuidParserW strW = .ok vn)
    ∧ '-' ∉ (VariableName.mk ['k', 'e', 'y'] ⟨[]⟩).key :=
  ⟨(c10_from_str_splits_at_first_hyphen uuidParserW strW).1.mpr
      ⟨by decide, ⟨⟨[]⟩, rfl⟩⟩,
   ((c10_from_str_splits_at_first_hyphen uuidParserW strW).2
      ⟨['k', 'e', 'y'], ⟨[]⟩⟩ rfl).2⟩

/-- C8: OrderedBootEntries iteration walks the order ids in sequence; an
id present in the entries map contributes exactly its entry at that
position, and an id with no matching entry contributes nothing (no error,
no placeholder). -/
theorem c8_iter_order_and_skip (entries : List (Nat × BootEntry)) (l1 l2 : List Nat) (id : Nat) :
    OrderedBootEntries.iter ⟨entries, ⟨l1 ++ id :: l2⟩⟩
      = OrderedBootEntries.iter ⟨entries, ⟨l1⟩⟩
        ++ (match hashMapGet entries id with
            | some e => [e]
            | none => [])
        ++ OrderedBootEntries.iter ⟨entries, ⟨l2⟩⟩ := by
  unfold OrderedBootEntries.iter
  simp only [List.filterMap_append, List.filterMap_cons]
  cases h : hashMapGet entries id <;> simp [h]

/-- A backend whose BootOrder variable exists and reads successfully with
an odd-length (3-byte) payload. -/
def oddBootOrderBackend : Backend Unit Unit :=
  ⟨.ok [], fun n => if n.key = bootOrderKey then some (.ok ⟨n, 0, [1, 0, 2]⟩) else none⟩

/-- Counterexample to C1 as stated: with a 3-byte BootOrder payload,
list_boot_entries panics inside the bytemuck cast (it does not return a
decode error). -/
theorem c1_counterexample_odd_bootorder :
    list_boot_entries oddBootOrderBackend = .panicked "cast_slice size mismatch" := rfl

/-- C1 (amended): whenever the BootOrder variable reads successfully with
an odd-length payload, list_boot_entries panics in the bytemuck
cast_slice with a size mismatch: the payload is neither truncated nor
reported as a decode error. -/
theorem c1_amended_odd_bootorder_panics {ε ρ : Type} (b : Backend ε ρ) (v : EFIVariable)
    (hv : b.read_variable (VariableName.global_vendor_new bootOrderKey) = some (.ok v))
    (hodd : v.data.length % 2 = 1) :
    list_boot_entries b = .panicked "cast_slice size mismatch" := by
  have h0 : ¬(v.data.length % 2 = 0) := by omega
  unfold list_boot_entries
  rw [hv]
  simp [castSliceU16, h0]

/-- Witness for c1_amended_odd_bootorder_panics on the concrete backend. -/
theorem c1_amended_witness :
    ∃ msg, list_boot_entries oddBootOrderBackend = .panicked msg :=
  ⟨"cast_slice size mismatch",
   c1_amended_odd_bootorder_panics oddBootOrderBackend
     ⟨VariableName.global_vendor_new bootOrderKey, 0, [1, 0, 2]⟩ rfl rfl⟩

/-- If every name before a given one produces no read-boot-entry error,
and that name produces one, the try_collect aborts with exactly that
error. -/
theorem collectBootEntries_append_error {ε ρ : Type} (b : Backend ε ρ)
    (pre suf : List VariableName) (name : VariableName) (err : ReadBootEntryError ρ)
    (hpre : ∀ n ∈ pre, ∀ e2, read_boot_entry b n ≠ some (.error e2))
    (hname : read_boot_entry b name = some (.error err)) :
    collectBootEntries b (pre ++ name :: suf) = .error err := by
  induction pre with
  | nil =>
    simp only [List.nil_append]
    unfold collectBootEntries
    rw [hname]
  | cons n rest ih =>
    have hrest : ∀ m ∈ rest, ∀ e2, read_boot_entry b m ≠ some (.error e2) :=
      fun m hm => hpre m (List.mem_cons_of_mem _ hm)
    have hcol := ih hrest
    show collectBootEntries b (n :: (rest ++ name :: suf)) = .error err
    unfold collectBootEntries
    cases hcase : read_boot_entry b n with
    | none => exact hcol
    | some r =>
      cases r with
      | error e2 => exact absurd hcase (hpre n (List.mem_cons_self n _) e2)
      | ok entry => rw [hcol]

/-- C6 (amended): during aggregation, a failed read of a variable whose
name matches the BootNNNN pattern is fatal to the whole aggregation, but
the resulting error wraps only the backend read error: the boot id (known
at the failure site, see the hid hypothesis) is not carried by the
ReadVariableError arm; ids tag parse errors only. -/
theorem c6_amended_read_failure_fatal_untagged {ε ρ : Type} (b : Backend ε ρ)
    (pre suf : List VariableName) (name : VariableName) (v : EFIVariable) (id : Nat) (e : ρ)
    (hbo : b.read_variable (VariableName.global_vendor_new bootOrderKey) = some (.ok v))
    (heven : v.data.length % 2 = 0)
    (henum : b.enumerate_variables = .ok (pre ++ name :: suf))
    (hpre : ∀ n ∈ pre, ∀ e2, read_boot_entry b n ≠ some (.error e2))
    (hid : bootKeyId name.key = some id)
    (hread : b.read_variable name = some (.error e)) :
    list_boot_entries b = .ok (.error (.ReadBootEntryError (.ReadVariableError e))) := by
  have hrbe : read_boot_entry b name = some (.error (.ReadVariableError e)) := by
    unfold read_boot_entry
    rw [hid, hread]
  have hcol := collectBootEntries_append_error b pre suf name _ hpre hrbe
  have hcast : castSliceU16 v.data = .ok (u16ChunksLE v.data) := by
    simp [castSliceU16, heven]
  simp only [list_boot_entries, hbo, hcast, henum, hcol]

/-- The key Boot0001. -/
def boot1Key : List Char := ['B', 'o', 'o', 't', '0', '0', '0', '1']

/-- The key Boot0002. -/
def boot2Key : List Char := ['B', 'o', 'o', 't', '0', '0', '0', '2']

/-- A backend exposing a readable empty BootOrder and one boot entry
variable with the given key whose read fails. -/
def failReadBackend (key : List Char) : Backend Unit Unit :=
  ⟨.ok [⟨key, EFI_GLOBAL_VENDOR_UUID⟩],
   fun n =>
     if n.key = bootOrderKey then some (.ok ⟨n, 0, []⟩)
     else if n.key = key then some (.error ()) else none⟩

/-- Counterexample to C6 as stated: two backends in which the failing
boot entries have different ids (1 and 2) produce byte-for-byte identical
aggregation errors, so the returned error cannot carry the failing boot
id.  The aggregation does abort with that error. -/
theorem c6_counterexample_error_carries_no_id :
    list_boot_entries (failReadBackend boot1Key) = list_boot_entries (failReadBackend boot2Key)
    ∧ list_boot_entries (failReadBackend boot1Key)
        = .ok (.error (.ReadBootEntryError (.ReadVariableError ())))
    ∧ bootKeyId boot1Key = some 1
    ∧ bootKeyId boot2Key = some 2 :=
  ⟨rfl, rfl, rfl, rfl⟩

/-- Witness for c6_amended_read_failure_fatal_untagged on the concrete
failing backend. -/
theorem c6_amended_witness :
    ∃ e : Unit, list_boot_entries (failReadBackend boot1Key)
      = .ok (.error (.ReadBootEntryError (.ReadVariableError e))) :=
  ⟨(), c6_amended_read_failure_fatal_untagged (failReadBackend boot1Key)
    [] [] ⟨boot1Key, EFI_GLOBAL_VENDOR_UUID⟩ ⟨VariableName.global_vendor_new bootOrderKey, 0, []⟩
    1 () rfl rfl rfl (fun n hn => absurd hn (List.not_mem_nil n)) rfl rfl⟩

/-- Reading a 2-byte little-endian encoding recovers the u16 value. -/
theorem readU16_u16le (v : Nat) (r : Bytes) (h : v < 65536) :
    readU16 (u16le v ++ r) = .ok (v, r) := by
  show Except.ok (v % 256 + 256 * (v / 256 % 256), r) = .ok (v, r)
  have hv : v % 256 + 256 * (v / 256 % 256) = v := by omega
  rw [hv]

/-- Reading a 4-byte little-endian encoding recovers the u32 value. -/
theorem readU32_u32le (v : Nat) (r : Bytes) (h : v < 2^32) :
    readU32 (u32le v ++ r) = .ok (v, r) := by
  show Except.ok (v % 256 + 256 * (v / 256 % 256) + 65536 * (v / 65536 % 256)
      + 16777216 * (v / 16777216 % 256), r) = .ok (v, r)
  have hv : v % 256 + 256 * (v / 256 % 256) + 65536 * (v / 65536 % 256)
      + 16777216 * (v / 16777216 % 256) = v := by omega
  rw [hv]

/-- Reading an 8-byte little-endian encoding recovers the u64 value. -/
theorem readU64_u64le (v : Nat) (r : Bytes) (h : v < 2^64) :
    readU64 (u64le v ++ r) = .ok (v, r) := by
  show Except.ok (v % 256 + 2^8 * (v / 2^8 % 256) + 2^16 * (v / 2^16 % 256)
      + 2^24 * (v / 2^24 % 256) + 2^32 * (v / 2^32 % 256) + 2^40 * (v / 2^40 % 256)
      + 2^48 * (v / 2^48 % 256) + 2^56 * (v / 2^56 % 256), r) = .ok (v, r)
  have hv : v % 256 + 2^8 * (v / 2^8 % 256) + 2^16 * (v / 2^16 % 256)
      + 2^24 * (v / 2^24 % 256) + 2^32 * (v / 2^32 % 256) + 2^40 * (v / 2^40 % 256)
      + 2^48 * (v / 2^48 % 256) + 2^56 * (v / 2^56 % 256) = v := by omega
  rw [hv]

/-- read_exact takes exactly the first block when its length is requested. -/
theorem readExact_append (xs r : Bytes) :
    readExact xs.length (xs ++ r) = .ok (xs, r) := by
  unfold readExact
  rw [if_neg (by simp)]
  rw [List.take_left, List.drop_left]

/-- utf16leBytes distributes over append. -/
theorem utf16leBytes_append (us vs : List Nat) :
    utf16leBytes (us ++ vs) = utf16leBytes us ++ utf16leBytes vs := by
  unfold utf16leBytes
  rw [List.map_append, List.flatten_append]

/-- Reading units until the 0x0000 terminator recovers a terminator-free
unit sequence and leaves the bytes after the terminator untouched. -/
theorem readUnitsUntilZero_utf16 (us : List Nat) (r : Bytes)
    (h : ∀ u ∈ us, u < 65536 ∧ u ≠ 0) :
    readUnitsUntilZero (utf16leBytes us ++ 0 :: 0 :: r) = .ok (us, r) := by
  induction us with
  | nil =>
    show readUnitsUntilZero (0 :: 0 :: r) = .ok ([], r)
    unfold readUnitsUntilZero
    simp
  | cons u us ih =>
    obtain ⟨hu16, hu0⟩ := h u (List.mem_cons_self u us)
    have ih2 := ih (fun x hx => h x (List.mem_cons_of_mem u hx))
    show readUnitsUntilZero
        (u % 256 :: u / 256 % 256 :: (utf16leBytes us ++ 0 :: 0 :: r)) = .ok (u :: us, r)
    unfold readUnitsUntilZero
    have hv : u % 256 + 256 * (u / 256 % 256) = u := by omega
    rw [hv, if_neg hu0, ih2]

/-- encodeUtf16 unfolds over cons. -/
theorem encodeUtf16_cons (c : Nat) (s : List Nat) :
    encodeUtf16 (c :: s) = encodeUtf16Char c ++ encodeUtf16 s := by
  unfold encodeUtf16
  simp

/-- The code units emitted for a nonzero valid scalar fit in a u16 and are
never the 0x0000 terminator. -/
theorem encodeUtf16Char_valid (c : Nat) (hc : ValidScalar c) (h0 : c ≠ 0) :
    ∀ u ∈ encodeUtf16Char c, u < 65536 ∧ u ≠ 0 := by
  intro u hu
  obtain ⟨hlt, hsur⟩ := hc
  unfold encodeUtf16Char at hu
  by_cases h : c < 0x10000
  · rw [if_pos h] at hu
    simp at hu
    subst hu
    exact ⟨h, h0⟩
  · rw [if_neg h] at hu
    simp at hu
    rcases hu with hu | hu <;> exact ⟨by omega, by omega⟩

/-- The code units of a NUL-free valid string fit in a u16 and are never
the terminator. -/
theorem encodeUtf16_valid (s : List Nat) (hs : ∀ c ∈ s, ValidScalar c ∧ c ≠ 0) :
    ∀ u ∈ encodeUtf16 s, u < 65536 ∧ u ≠ 0 := by
  intro u hu
  unfold encodeUtf16 at hu
  simp only [List.mem_flatten, List.mem_map] at hu
  obtain ⟨l, ⟨c, hc, rfl⟩, hu⟩ := hu
  exact encodeUtf16Char_valid c (hs c hc).1 (hs c hc).2 u hu

/-- UTF-16 round trip on strings of valid scalars: decoding the encoding
gives back the string. -/
theorem fromUtf16_encodeUtf16 (s : List Nat) (hs : ∀ c ∈ s, ValidScalar c) :
    fromUtf16 (encodeUtf16 s) = some s := by
  induction s with
  | nil => rfl
  | cons c cs ih =>
    obtain ⟨hlt, hsur⟩ := hs c (List.mem_cons_self c cs)
    have ih2 := ih (fun x hx => hs x (List.mem_cons_of_mem c hx))
    rw [encodeUtf16_cons]
    by_cases h : c < 0x10000
    · rw [show encodeUtf16Char c = [c] from by unfold encodeUtf16Char; rw [if_pos h]]
      show fromUtf16 (c :: encodeUtf16 cs) = some (c :: cs)
      unfold fromUtf16
      rw [if_pos (by omega : c < 0xD800 ∨ 0xE000 ≤ c), ih2]
      rfl
    · rw [show encodeUtf16Char c
          = [0xD800 + (c - 0x10000) / 0x400, 0xDC00 + (c - 0x10000) % 0x400] from by
        unfold encodeUtf16Char; rw [if_neg h]]
      show fromUtf16 ((0xD800 + (c - 0x10000) / 0x400)
          :: (0xDC00 + (c - 0x10000) % 0x400) :: encodeUtf16 cs) = some (c :: cs)
      have hq : (c - 0x10000) / 0x400 < 0x400 := by omega
      unfold fromUtf16
      rw [if_neg (by omega), if_pos (by omega)]
      dsimp only
      rw [if_pos (⟨by omega, by omega⟩ : 0xDC00 ≤ 0xDC00 + (c - 0x10000) % 0x400
          ∧ 0xDC00 + (c - 0x10000) % 0x400 < 0xE000)]
      rw [ih2]
      simp
      omega

/-- A 16-byte list is sixteen explicit elements. -/
theorem exists_sixteen (l : List Nat) (h : l.length = 16) :
    ∃ b0 b1 b2 b3 b4 b5 b6 b7 b8 b9 b10 b11 b12 b13 b14 b15,
      l = [b0, b1, b2, b3, b4, b5, b6, b7, b8, b9, b10, b11, b12, b13, b14, b15] := by
  rcases l with _ | ⟨b0, l⟩; · simp at h
  rcases l with _ | ⟨b1, l⟩; · simp at h
  rcases l with _ | ⟨b2, l⟩; · simp at h
  rcases l with _ | ⟨b3, l⟩; · simp at h
  rcases l with _ | ⟨b4, l⟩; · simp at h
  rcases l with _ | ⟨b5, l⟩; · simp at h
  rcases l with _ | ⟨b6, l⟩; · simp at h
  rcases l with _ | ⟨b7, l⟩; · simp at h
  rcases l with _ | ⟨b8, l⟩; · simp at h
  rcases l with _ | ⟨b9, l⟩; · simp at h
  rcases l with _ | ⟨b10, l⟩; · simp at h
  rcases l with _ | ⟨b11, l⟩; · simp at h
  rcases l with _ | ⟨b12, l⟩; · simp at h
  rcases l with _ | ⟨b13, l⟩; · simp at h
  rcases l with _ | ⟨b14, l⟩; · simp at h
  rcases l with _ | ⟨b15, l⟩; · simp at h
  rcases l with _ | ⟨b16, l⟩
  · exact ⟨b0, b1, b2, b3, b4, b5, b6, b7, b8, b9, b10, b11, b12, b13, b14, b15, rfl⟩
  · simp at h

/-- readU8 on a nonempty buffer. -/
theorem readU8_cons (b : Nat) (r : Bytes) : readU8 (b :: r) = .ok (b, r) := rfl

/-- read_exact of 16 bytes from an explicit 16-byte prefix. -/
theorem readExact_sixteen (b0 b1 b2 b3 b4 b5 b6 b7 b8 b9 b10 b11 b12 b13 b14 b15 : Nat)
    (r : Bytes) :
    readExact 16 (b0 :: b1 :: b2 :: b3 :: b4 :: b5 :: b6 :: b7 :: b8 :: b9 :: b10 :: b11
        :: b12 :: b13 :: b14 :: b15 :: r)
      = .ok ([b0, b1, b2, b3, b4, b5, b6, b7, b8, b9, b10, b11, b12, b13, b14, b15], r) := by
  have h := readExact_append
    [b0, b1, b2, b3, b4, b5, b6, b7, b8, b9, b10, b11, b12, b13, b14, b15] r
  simpa using h

/-- The num_enum conversions invert the discriminants. -/
theorem tryFromPrimitive_toByte (t : PartitionTableType) :
    PartitionTableType.tryFromPrimitive t.toByte = some t := by
  cases t <;> rfl

/-- The End sub type conversion inverts the discriminant. -/
theorem endTryFromPrimitive_sub_type (e : EndSubType) :
    EndSubType.tryFromPrimitive e.sub_type = some e := by
  cases e <;> rfl

/-- Length of the 16-byte signature payload stored in a Signature value. -/
def signatureDataLength : Signature → Nat
  | .None d => d.length
  | .MBRSignature d => d.length
  | .GUID u => u.bytes.length

/-- Invariants of a device path node value that the Rust types enforce:
integer fields fit their machine widths and signature payloads are 16
bytes ([u8; 16] and Uuid are fixed-size); for FilePath additionally the
path holds only valid nonzero scalars, the one condition a Rust String
does not enforce (a NUL scalar is representable and breaks the codec
round trip, see the C3 counterexample). -/
def GoodNode : EFIDevicePathProtocol → Prop
  | .MediaDevicePath (.HardDrive h) =>
      h.partition_number < 2^32 ∧ h.partition_start < 2^64 ∧ h.partition_size < 2^64
        ∧ signatureDataLength h.signature = 16
  | .MediaDevicePath (.FilePath f) => ∀ c ∈ f.path_name, ValidScalar c ∧ c ≠ 0
  | .End _ => True

instance : (n : EFIDevicePathProtocol) → Decidable (GoodNode n)
  | .MediaDevicePath (.HardDrive h) =>
      inferInstanceAs (Decidable (h.partition_number < 2^32 ∧ h.partition_start < 2^64
        ∧ h.partition_size < 2^64 ∧ signatureDataLength h.signature = 16))
  | .MediaDevicePath (.FilePath f) =>
      inferInstanceAs (Decidable (∀ c ∈ f.path_name, ValidScalar c ∧ c ≠ 0))
  | .End _ => inferInstanceAs (Decidable True)

/-- Discriminates the Media node family from terminators. -/
def EFIDevicePathProtocol.isMediaNode : EFIDevicePathProtocol → Bool
  | .MediaDevicePath _ => true
  | .End _ => false

/-- An in-memory chain of supported media nodes (the only shape the
source constructs and the parse loop returns), with per-node goodness. -/
def GoodMediaChain (l : List EFIDevicePathProtocol) : Prop :=
  ∀ n ∈ l, n.isMediaNode = true ∧ GoodNode n

instance (l : List EFIDevicePathProtocol) : Decidable (GoodMediaChain l) := by
  unfold GoodMediaChain; infer_instance

/-- Parsing a written hard drive payload recovers the value and leaves
the following bytes untouched. -/
theorem parse_write_hard_drive (pn st sz : Nat) (sig : Signature) (table : PartitionTableType)
    (r : Bytes) (h1 : pn < 2^32) (h2 : st < 2^64) (h3 : sz < 2^64)
    (h4 : signatureDataLength sig = 16) :
    HardDriveDevicePath.parse (HardDriveDevicePath.write ⟨pn, st, sz, sig, table⟩ ++ r)
      = .ok (⟨pn, st, sz, sig, table⟩, r) := by
  rcases sig with d | d | u
  · simp only [signatureDataLength] at h4
    obtain ⟨b0, b1, b2, b3, b4, b5, b6, b7, b8, b9, b10, b11, b12, b13, b14, b15, rfl⟩ :=
      exists_sixteen d h4
    simp [HardDriveDevicePath.write, HardDriveDevicePath.parse, Signature.toByte,
      List.append_assoc,
      readU32_u32le _ _ h1, readU64_u64le _ _ h2, readU64_u64le _ _ h3,
      readExact_sixteen, readU8_cons, tryFromPrimitive_toByte]
  · simp only [signatureDataLength] at h4
    obtain ⟨b0, b1, b2, b3, b4, b5, b6, b7, b8, b9, b10, b11, b12, b13, b14, b15, rfl⟩ :=
      exists_sixteen d h4
    simp [HardDriveDevicePath.write, HardDriveDevicePath.parse, Signature.toByte,
      List.append_assoc,
      readU32_u32le _ _ h1, readU64_u64le _ _ h2, readU64_u64le _ _ h3,
      readExact_sixteen, readU8_cons, tryFromPrimitive_toByte]
  · obtain ⟨ub⟩ := u
    simp only [signatureDataLength] at h4
    obtain ⟨b0, b1, b2, b3, b4, b5, b6, b7, b8, b9, b10, b11, b12, b13, b14, b15, rfl⟩ :=
      exists_sixteen ub h4
    simp [HardDriveDevicePath.write, HardDriveDevicePath.parse, Signature.toByte,
      List.append_assoc, Uuid.toBytesLE, Uuid.fromBytesLE,
      uuidShuffleLE, readU32_u32le _ _ h1, readU64_u64le _ _ h2, readU64_u64le _ _ h3,
      readExact_sixteen, readU8_cons, tryFromPrimitive_toByte]

/-- Parsing a written file path payload recovers the value. -/
theorem parse_write_file_path (p : List Nat) (r : Bytes)
    (hp : ∀ c ∈ p, ValidScalar c ∧ c ≠ 0) :
    FilePathDevicePath.parse (MediaDevicePath.write (.FilePath ⟨p⟩) ++ r) = .ok (⟨p⟩, r) := by
  have hb : MediaDevicePath.write (.FilePath ⟨p⟩) ++ r
      = utf16leBytes (encodeUtf16 p) ++ 0 :: 0 :: r := by
    show utf16leBytes (encodeUtf16 p ++ [0x0000]) ++ r = _
    rw [utf16leBytes_append, List.append_assoc]
    rfl
  rw [hb]
  unfold FilePathDevicePath.parse
  rw [readUnitsUntilZero_utf16 _ _ (encodeUtf16_valid p hp)]
  dsimp only
  rw [fromUtf16_encodeUtf16 p (fun c hc => (hp c hc).1)]

/-- A node size value is always below 65536 (wrapping u16 arithmetic). -/
theorem node_size_lt (n : EFIDevicePathProtocol) : n.size < 65536 := by
  unfold EFIDevicePathProtocol.size
  exact Nat.mod_lt _ (by norm_num)

/-- Parsing a written device path node recovers the node and leaves the
following bytes untouched (the written size field is read and ignored). -/
theorem parse_write_node (n : EFIDevicePathProtocol) (r : Bytes) (hn : GoodNode n) :
    EFIDevicePathProtocol.parse (n.write ++ r) = .ok (n, r) := by
  rcases n with m | e
  · rcases m with hd | f
    · obtain ⟨pn, st, sz, sig, table⟩ := hd
      obtain ⟨h1, h2, h3, h4⟩ := hn
      show EFIDevicePathProtocol.parse
        (0x04 :: 0x01 :: (u16le (EFIDevicePathProtocol.size
            (.MediaDevicePath (.HardDrive ⟨pn, st, sz, sig, table⟩)))
          ++ HardDriveDevicePath.write ⟨pn, st, sz, sig, table⟩) ++ r) = _
      unfold EFIDevicePathProtocol.parse
      simp only [List.cons_append, List.append_assoc]
      rw [readU8_cons]
      dsimp only
      rw [readU8_cons]
      dsimp only
      rw [readU16_u16le _ _ (node_size_lt _)]
      dsimp only
      rw [if_pos rfl]
      unfold MediaDevicePath.parse
      rw [if_pos rfl]
      rw [parse_write_hard_drive pn st sz sig table r h1 h2 h3 h4]
    · obtain ⟨p⟩ := f
      show EFIDevicePathProtocol.parse
        (0x04 :: 0x04 :: (u16le (EFIDevicePathProtocol.size
            (.MediaDevicePath (.FilePath ⟨p⟩)))
          ++ MediaDevicePath.write (.FilePath ⟨p⟩)) ++ r) = _
      unfold EFIDevicePathProtocol.parse
      simp only [List.cons_append, List.append_assoc]
      rw [readU8_cons]
      dsimp only
      rw [readU8_cons]
      dsimp only
      rw [readU16_u16le _ _ (node_size_lt _)]
      dsimp only
      rw [if_pos rfl]
      unfold MediaDevicePath.parse
      rw [if_neg (by norm_num), if_pos rfl]
      rw [parse_write_file_path p r hn]
  · show EFIDevicePathProtocol.parse
      (0x7F :: e.sub_type :: (u16le (EFIDevicePathProtocol.size (.End e)) ++ []) ++ r) = _
    unfold EFIDevicePathProtocol.parse
    simp only [List.cons_append, List.append_assoc, List.nil_append]
    rw [readU8_cons]
    dsimp only
    rw [readU8_cons]
    dsimp only
    rw [readU16_u16le _ _ (node_size_lt _)]
    dsimp only
    rw [if_neg (by norm_num), if_pos rfl]
    rw [endTryFromPrimitive_sub_type]

/-- writeDevicePathList unfolds over cons. -/
theorem writeDevicePathList_cons (n : EFIDevicePathProtocol) (ns : List EFIDevicePathProtocol) :
    writeDevicePathList (n :: ns) = n.write ++ writeDevicePathList ns := by
  simp [writeDevicePathList]

/-- Every node writes a nonempty byte sequence. -/
theorem node_write_length_pos (n : EFIDevicePathProtocol) : 0 < n.write.length := by
  rcases n with m | e <;> simp [EFIDevicePathProtocol.write]

/-- A written chain is longer (in bytes) than its node count, so the
fuel used by parseDevicePathList suffices. -/
theorem writeDevicePathList_length (nodes : List EFIDevicePathProtocol) :
    nodes.length < (writeDevicePathList nodes).length := by
  induction nodes with
  | nil => decide
  | cons n ns ih =>
    rw [writeDevicePathList_cons]
    have h := node_write_length_pos n
    simp only [List.length_append, List.length_cons]
    omega

/-- The parse loop only ever collects Media nodes: the End terminator is
discarded, never returned. -/
theorem parseDevicePathListAux_no_end (fuel : Nat) :
    ∀ (b : Bytes) (l : List EFIDevicePathProtocol) (r : Bytes),
      parseDevicePathListAux fuel b = .ok (l, r) → ∀ n ∈ l, n.isMediaNode = true := by
  induction fuel with
  | zero =>
    intro b l r h
    simp [parseDevicePathListAux] at h
  | succ fuel ih =>
    intro b l r h
    unfold parseDevicePathListAux at h
    cases hp : EFIDevicePathProtocol.parse b with
    | error e => rw [hp] at h; cases h
    | ok v =>
      obtain ⟨node, rest⟩ := v
      rw [hp] at h
      cases node with
      | End e2 =>
        dsimp only at h
        cases h
        intro n hn
        cases hn
      | MediaDevicePath m =>
        dsimp only at h
        cases hc : parseDevicePathListAux fuel rest with
        | error e => rw [hc] at h; cases h
        | ok w =>
          obtain ⟨list, leftover⟩ := w
          rw [hc] at h
          dsimp only at h
          cases h
          intro n hn
          rcases List.mem_cons.mp hn with rfl | hn2
          · rfl
          · exact ih rest _ _ hc n hn2

/-- Parsing a written chain (with any trailing junk inside the window)
recovers the nodes and reports the junk as the unconsumed leftover. -/
theorem parseAux_write_chain (nodes : List EFIDevicePathProtocol) (hg : GoodMediaChain nodes)
    (junk : Bytes) :
    ∀ fuel, nodes.length < fuel →
      parseDevicePathListAux fuel (writeDevicePathList nodes ++ junk) = .ok (nodes, junk) := by
  induction nodes with
  | nil =>
    intro fuel hf
    obtain ⟨f, rfl⟩ : ∃ f, fuel = f + 1 := ⟨fuel - 1, by omega⟩
    have hw : writeDevicePathList [] ++ junk
        = EFIDevicePathProtocol.write (.End .EndEntireDevicePath) ++ junk := by
      simp [writeDevicePathList, EFIDevicePathProtocol.new_end_entire]
    rw [hw]
    unfold parseDevicePathListAux
    rw [parse_write_node (.End .EndEntireDevicePath) junk (by exact trivial)]
  | cons n ns ih =>
    intro fuel hf
    obtain ⟨f, rfl⟩ : ∃ f, fuel = f + 1 := ⟨fuel - 1, by omega⟩
    have hgn := hg n (List.mem_cons_self n ns)
    have hgns : GoodMediaChain ns := fun m hm => hg m (List.mem_cons_of_mem n hm)
    obtain ⟨m, rfl⟩ : ∃ m, n = .MediaDevicePath m := by
      cases n with
      | MediaDevicePath m => exact ⟨m, rfl⟩
      | End e2 => simp [EFIDevicePathProtocol.isMediaNode] at hgn
    rw [writeDevicePathList_cons, List.append_assoc]
    unfold parseDevicePathListAux
    rw [parse_write_node _ _ hgn.2]
    dsimp only
    rw [ih hgns f (by simp only [List.length_cons] at hf; omega)]

/-- Wrapper form of the chain round trip: the loop fuel always suffices. -/
theorem parseDevicePathList_write_chain (nodes : List EFIDevicePathProtocol)
    (hg : GoodMediaChain nodes) (junk : Bytes) :
    parseDevicePathList (writeDevicePathList nodes ++ junk) = .ok (nodes, junk) := by
  apply parseAux_write_chain nodes hg junk
  have h := writeDevicePathList_length nodes
  simp only [List.length_append]
  omega

/-- C3 (amended): for every chain of the supported media node variants
whose fields carry their Rust type invariants and whose file paths
contain no NUL scalar, decoding the encoding yields the same nodes in
the same order, and no decoded chain (of any input) ever contains an End
node: the appended EndEntire terminator never appears in a decode
result. -/
theorem c3_amended_chain_round_trip (nodes : List EFIDevicePathProtocol)
    (hg : GoodMediaChain nodes) :
    parseDevicePathList (writeDevicePathList nodes) = .ok (nodes, [])
    ∧ (∀ (b : Bytes) (l : List EFIDevicePathProtocol) (r : Bytes),
        parseDevicePathList b = .ok (l, r) → ∀ n ∈ l, ∀ e, n ≠ .End e) := by
  constructor
  · have h := parseDevicePathList_write_chain nodes hg []
    simpa using h
  · intro b l r h n hn e he
    have hm := parseDevicePathListAux_no_end _ b l r h n hn
    rw [he] at hm
    simp [EFIDevicePathProtocol.isMediaNode] at hm

/-- The chain whose single file path is the one-character string U+0000. -/
def nulFilePathChain : List EFIDevicePathProtocol :=
  [.MediaDevicePath (.FilePath ⟨[0]⟩)]

/-- Counterexample to C3 as stated: a FilePath node whose path contains a
NUL scalar is a chain of supported variants, yet decoding its encoding
fails (the NUL encodes as an early terminator and the next node header is
read from the middle of the path bytes), rather than yielding an equal
chain. -/
theorem c3_counterexample_nul_path :
    parseDevicePathList (writeDevicePathList nulFilePathChain)
      = .error (.unknownType 0) := rfl

/-- Witness for c3_amended_chain_round_trip on a one-node chain with path
content A. -/
theorem c3_amended_witness :
    parseDevicePathList (writeDevicePathList [.MediaDevicePath (.FilePath ⟨[65]⟩)])
      = .ok ([.MediaDevicePath (.FilePath ⟨[65]⟩)], []) :=
  (c3_amended_chain_round_trip [.MediaDevicePath (.FilePath ⟨[65]⟩)] (by decide)).1

/-- Stepping lemma for EFILoadOption::parse on a wire-shaped buffer:
attributes, length field, terminated description units, a window of
exactly that length, then trailing bytes.  The chain decode result on
the window is taken as a hypothesis, leftover included: the leftover is
discarded and the trailing bytes become the optional data. -/
theorem loadOptionParse_steps
    (a : Nat) (ha : a < 2^32) (descUnits desc : List Nat)
    (hdu : ∀ u ∈ descUnits, u < 65536 ∧ u ≠ 0) (hdesc : fromUtf16 descUnits = some desc)
    (window rest : Bytes) (hwl : window.length < 65536)
    (nodes : List EFIDevicePathProtocol) (leftover : Bytes)
    (hchain : parseDevicePathList window = .ok (nodes, leftover)) :
    EFILoadOption.parse
        (u32le a ++ u16le window.length ++ utf16leBytes descUnits
          ++ 0 :: 0 :: (window ++ rest))
      = .ok ⟨a, nodes, desc, rest⟩ := by
  unfold EFILoadOption.parse
  simp only [List.append_assoc]
  rw [readU32_u32le _ _ ha]
  dsimp only
  rw [readU16_u16le _ _ hwl]
  dsimp only
  rw [readUnitsUntilZero_utf16 _ _ hdu]
  dsimp only
  rw [hdesc]
  dsimp only
  rw [readExact_append window rest]
  dsimp only
  rw [hchain]

/-- C2 (amended): EFILoadOption::parse takes exactly
devicePathListLength bytes as the device path window; the chain decode
stops at the first End node, and any window bytes left after it are
silently discarded: parsing succeeds whether or not the chain consumes
the window exactly, and the bytes after the window become the optional
data untouched. -/
theorem c2_amended_window_leftover_tolerated
    (a : Nat) (ha : a < 2^32) (descUnits desc : List Nat)
    (hdu : ∀ u ∈ descUnits, u < 65536 ∧ u ≠ 0) (hdesc : fromUtf16 descUnits = some desc)
    (window rest : Bytes) (hwl : window.length < 65536)
    (nodes : List EFIDevicePathProtocol) (leftover : Bytes)
    (hchain : parseDevicePathList window = .ok (nodes, leftover)) :
    EFILoadOption.parse
        (u32le a ++ u16le window.length ++ utf16leBytes descUnits
          ++ 0 :: 0 :: (window ++ rest))
      = .ok ⟨a, nodes, desc, rest⟩ :=
  loadOptionParse_steps a ha descUnits desc hdu hdesc window rest hwl nodes leftover hchain

/-- Counterexample to C2 as stated: a load option whose 8-byte window
holds an End node followed by 4 extra bytes parses successfully (the
extra bytes are silently dropped); the claim requires a parse error
whenever the window is not consumed exactly. -/
theorem c2_counterexample_leftover_after_end :
    EFILoadOption.parse
        [0, 0, 0, 0, 8, 0, 0, 0, 0x7F, 0xFF, 0x04, 0x00, 0xAA, 0xAA, 0xAA, 0xAA]
      = .ok ⟨0, [], [], []⟩
    ∧ parseDevicePathList [0x7F, 0xFF, 0x04, 0x00, 0xAA, 0xAA, 0xAA, 0xAA]
      = .ok ([], [0xAA, 0xAA, 0xAA, 0xAA]) := ⟨rfl, rfl⟩

/-- Witness for c2_amended_window_leftover_tolerated: the same window with
an unconsumed tail, followed by one byte of optional data. -/
theorem c2_amended_witness :
    EFILoadOption.parse
        (u32le 0 ++ u16le ([0x7F, 0xFF, 0x04, 0x00, 0xAA, 0xAA, 0xAA, 0xAA] : Bytes).length
          ++ utf16leBytes []
          ++ 0 :: 0 :: (([0x7F, 0xFF, 0x04, 0x00, 0xAA, 0xAA, 0xAA, 0xAA] : Bytes) ++ [0x55]))
      = .ok ⟨0, [], [], [0x55]⟩ :=
  c2_amended_window_leftover_tolerated 0 (by norm_num) [] []
    (fun u hu => absurd hu (List.not_mem_nil u)) rfl
    [0x7F, 0xFF, 0x04, 0x00, 0xAA, 0xAA, 0xAA, 0xAA] [0x55] (by decide)
    [] [0xAA, 0xAA, 0xAA, 0xAA] rfl

/-- utf16leBytes doubles the unit count. -/
theorem utf16leBytes_length (us : List Nat) : (utf16leBytes us).length = 2 * us.length := by
  induction us with
  | nil => rfl
  | cons u us ih =>
    show (u16le u ++ utf16leBytes us).length = 2 * (us.length + 1)
    simp only [List.length_append, ih, u16le, List.length_cons, List.length_nil]
    omega

/-- When the written node fits a u16 length, the recomputed size field
equals the written byte count (header included). -/
theorem node_size_eq_write_length (n : EFIDevicePathProtocol) (hn : GoodNode n)
    (hlen : n.write.length < 65536) :
    n.size = n.write.length := by
  rcases n with m | e
  · rcases m with hd | f
    · obtain ⟨pn, st, sz, sig, table⟩ := hd
      obtain ⟨h1, h2, h3, h4⟩ := hn
      have hsig : (match sig with
          | Signature.None data => data
          | Signature.MBRSignature data => data
          | Signature.GUID u => u.toBytesLE).length = 16 := by
        rcases sig with d | d | u
        · exact h4
        · exact h4
        · obtain ⟨ub⟩ := u
          simp only [signatureDataLength] at h4
          obtain ⟨b0, b1, b2, b3, b4, b5, b6, b7, b8, b9, b10, b11, b12, b13, b14, b15, rfl⟩ :=
            exists_sixteen ub h4
          rfl
      show (4 + (4 + 8 + 8 + 16 + 1 + 1)) % 65536 = _
      simp [EFIDevicePathProtocol.write, MediaDevicePath.write, HardDriveDevicePath.write,
        MediaDevicePath.sub_type, u32le, u64le, u16le, hsig]
    · obtain ⟨p⟩ := f
      have hwlen : (EFIDevicePathProtocol.write (.MediaDevicePath (.FilePath ⟨p⟩))).length
          = 4 + 2 * ((encodeUtf16 p).length + 1) := by
        show ([0x04, 0x04] ++ u16le _ ++ utf16leBytes (encodeUtf16 p ++ [0x0000])).length = _
        simp [List.length_append, utf16leBytes_length, u16le]
        omega
      rw [hwlen] at hlen ⊢
      show (4 + ((encodeUtf16 p).length + 1) % 65536 * 2 % 65536) % 65536 = _
      omega
  · cases e <;> rfl

/-- The wrapping u16 fold of sizes is the plain sum taken mod 65536. -/
theorem sumSizes_foldl (l : List EFIDevicePathProtocol) (a : Nat) :
    l.foldl (fun acc n => (acc + n.size) % 65536) (a % 65536)
      = (a + (l.map EFIDevicePathProtocol.size).sum) % 65536 := by
  induction l generalizing a with
  | nil => simp
  | cons n ns ih =>
    simp only [List.foldl_cons, List.map_cons, List.sum_cons]
    have hm : (a % 65536 + n.size) % 65536 = (a + n.size) % 65536 := by omega
    rw [hm, ih (a + n.size)]
    congr 1
    omega

/-- sumSizesU16 as a plain sum mod 65536. -/
theorem sumSizesU16_eq (l : List EFIDevicePathProtocol) :
    sumSizesU16 l = (l.map EFIDevicePathProtocol.size).sum % 65536 := by
  have h := sumSizes_foldl l 0
  simpa [sumSizesU16] using h

/-- The byte length of a written chain. -/
theorem writeDevicePathList_length_sum (nodes : List EFIDevicePathProtocol) :
    (writeDevicePathList nodes).length
      = ((nodes ++ [EFIDevicePathProtocol.new_end_entire]).map
          (fun n => n.write.length)).sum := by
  unfold writeDevicePathList
  rw [List.length_flatten]
  rw [List.map_map]
  rfl

/-- For a good chain that fits a u16, the length field written by
EFILoadOption::write equals the actual window byte count. -/
theorem sumSizesU16_eq_window_length (nodes : List EFIDevicePathProtocol)
    (hg : GoodMediaChain nodes)
    (hlt : (writeDevicePathList nodes).length < 65536) :
    sumSizesU16 (nodes ++ [EFIDevicePathProtocol.new_end_entire])
      = (writeDevicePathList nodes).length := by
  have hmem : ∀ n ∈ nodes ++ [EFIDevicePathProtocol.new_end_entire],
      n.write.length ≤ (writeDevicePathList nodes).length := by
    intro n hn
    rw [writeDevicePathList_length_sum]
    exact List.single_le_sum (fun x _ => Nat.zero_le x) _
      (List.mem_map_of_mem (fun n => n.write.length) hn)
  have hgood : ∀ n ∈ nodes ++ [EFIDevicePathProtocol.new_end_entire], GoodNode n := by
    intro n hn
    rcases List.mem_append.mp hn with h | h
    · exact (hg n h).2
    · rcases List.mem_singleton.mp h with rfl
      exact trivial
  have hsizes : (nodes ++ [EFIDevicePathProtocol.new_end_entire]).map
        EFIDevicePathProtocol.size
      = (nodes ++ [EFIDevicePathProtocol.new_end_entire]).map (fun n => n.write.length) := by
    apply List.map_congr_left
    intro n hn
    exact node_size_eq_write_length n (hgood n hn) (Nat.lt_of_le_of_lt (hmem n hn) hlt)
  rw [sumSizesU16_eq, hsizes, ← writeDevicePathList_length_sum]
  omega

/-- Invariants of an in-memory load option carried by the Rust types plus
the two conditions the types do not enforce but that a well-formed wire
image requires: description and path strings are NUL-free, and the
encoded device path window fits the u16 length field. -/
def GoodLoadOption (lo : EFILoadOption) : Prop :=
  lo.attributes < 2^32
  ∧ (∀ c ∈ lo.description, ValidScalar c ∧ c ≠ 0)
  ∧ GoodMediaChain lo.file_path_list
  ∧ (writeDevicePathList lo.file_path_list).length < 65536

instance (lo : EFILoadOption) : Decidable (GoodLoadOption lo) := by
  unfold GoodLoadOption; infer_instance

/-- Parsing a written load option recovers it exactly. -/
theorem parse_write_load_option (lo : EFILoadOption) (h : GoodLoadOption lo) :
    EFILoadOption.parse lo.write = .ok lo := by
  obtain ⟨ha, hdesc, hchain, hlen⟩ := h
  obtain ⟨a, fpl, desc, opt⟩ := lo
  have hunits := encodeUtf16_valid desc hdesc
  have hfrom := fromUtf16_encodeUtf16 desc (fun c hc => (hdesc c hc).1)
  have hpd : parseDevicePathList (writeDevicePathList fpl) = .ok (fpl, []) := by
    have hp := parseDevicePathList_write_chain fpl hchain []
    simpa using hp
  have hstep := loadOptionParse_steps a ha (encodeUtf16 desc) desc hunits hfrom
    (writeDevicePathList fpl) opt hlen fpl [] hpd
  have hsum : sumSizesU16 (fpl ++ [EFIDevicePathProtocol.new_end_entire])
      = (writeDevicePathList fpl).length := sumSizesU16_eq_window_length fpl hchain hlen
  have hbytes : EFILoadOption.write ⟨a, fpl, desc, opt⟩
      = u32le a ++ u16le (writeDevicePathList fpl).length ++ utf16leBytes (encodeUtf16 desc)
        ++ 0 :: 0 :: (writeDevicePathList fpl ++ opt) := by
    show u32le a ++ u16le (sumSizesU16 (fpl ++ [EFIDevicePathProtocol.new_end_entire]))
        ++ utf16leBytes (encodeUtf16 desc ++ [0x0000]) ++ writeDevicePathList fpl ++ opt = _
    rw [hsum, utf16leBytes_append]
    simp [List.append_assoc]
    rfl
  rw [hbytes]
  exact hstep

/-- A byte sequence is a valid load option encoding exactly when it is the
wire image of a good in-memory load option: a 4-byte little-endian
attributes field, the u16 path-list length, a 0x0000-terminated UTF-16LE
description, a device path chain of supported nodes closed by the
EndEntire terminator and filling the declared window, then opaque
optional data.  Since EFILoadOption::write emits precisely that grammar
with a recomputed length field, the image of write over GoodLoadOption
values is that set of byte sequences. -/
def ValidLoadOptionBytes (b : Bytes) : Prop :=
  ∃ lo, GoodLoadOption lo ∧ lo.write = b

/-- C4: for every byte sequence that is a valid load option encoding,
decoding with EFILoadOption::parse succeeds and re-encoding with
EFILoadOption::write reproduces the original bytes exactly (the 4-byte
store-attributes prefix lives one layer above this codec and is not part
of the buffer). -/
theorem c4_load_option_bytes_round_trip (b : Bytes) (h : ValidLoadOptionBytes b) :
    ∃ lo, EFILoadOption.parse b = .ok lo ∧ lo.write = b := by
  obtain ⟨lo, hg, rfl⟩ := h
  exact ⟨lo, parse_write_load_option lo hg, rfl⟩

/-- Witness for c4_load_option_bytes_round_trip on a small concrete load
option (attributes 1, one file path node, description A, one byte of
optional data). -/
theorem c4_load_option_witness :
    ∃ lo, EFILoadOption.parse
        (EFILoadOption.write ⟨1, [.MediaDevicePath (.FilePath ⟨[66]⟩)], [65], [7]⟩)
      = .ok lo
    ∧ lo.write = EFILoadOption.write ⟨1, [.MediaDevicePath (.FilePath ⟨[66]⟩)], [65], [7]⟩ :=
  c4_load_option_bytes_round_trip _
    ⟨⟨1, [.MediaDevicePath (.FilePath ⟨[66]⟩)], [65], [7]⟩, by decide, rfl⟩
